import Mathlib

/-!
Verification development for the `yahoo_finance` module
(`src/yahoo_finance.py`).

The module downloads a CSV-formatted historical price series and parses
it into structured rows.  We shallowly embed the pure computational
content of the two functions `load_csv_data` and
`quotes_historical_yahoo_ochl`:

* response bodies and CSV lines are `List Char`;
* Python `str.split(sep)` is `splitOnChar`;
* Python `float` values are modelled by `FloatVal`, a rational number
  together with the IEEE special values `inf`/`-inf`/`nan` that the
  adjustment step (`aclose / close`, `np.isinf`, multiplication) can
  produce; parsing of plain decimal literals (the only literals the
  endpoint emits) is `parseFloat`;
* the two HTTP oracles (`_get_crumbs_and_cookies` and the data-endpoint
  GET of each loop iteration) are abstracted as functions
  `acquire : ℕ → Option (header × crumb)` and `fetch : ℕ → List Char`
  giving the result of the k-th call of each kind; everything done with
  their results (the retry loop, the `Unauthorized` substring test, the
  for-else error classification, the line splitting) is embedded
  faithfully;
* a Python exception is `none` / a dedicated error constructor; the
  `continue` that skips a malformed line is `some none`.
-/

namespace YahooFinance

/-! ## Floating point model

Values flowing through the price columns.  Parsed literals are finite
rationals; the adjustment step can create `inf`/`nan` through division
by zero, exactly as IEEE doubles do (the model has a single zero, which
matches the parsed data: `float('0')` and the `'null'` sentinel both
give `+0.0`). -/

inductive FloatVal where
  | fin (q : ℚ)
  | inf (pos : Bool)
  | nan
deriving DecidableEq, Inhabited

namespace FloatVal

def isFinite : FloatVal → Bool
  | fin _ => true
  | _ => false

/-- `np.isinf`. -/
def isinf : FloatVal → Bool
  | inf _ => true
  | _ => false

/-- IEEE division restricted to the values the model can hold. -/
def fdiv : FloatVal → FloatVal → FloatVal
  | nan, _ => nan
  | _, nan => nan
  | fin a, fin b =>
      if b = 0 then (if a = 0 then nan else inf (0 < a)) else fin (a / b)
  | fin _, inf _ => fin 0
  | inf s, fin b => if b = 0 then inf s else (if 0 < b then inf s else inf (!s))
  | inf _, inf _ => nan

/-- IEEE multiplication restricted to the values the model can hold. -/
def fmul : FloatVal → FloatVal → FloatVal
  | nan, _ => nan
  | _, nan => nan
  | fin a, fin b => fin (a * b)
  | fin a, inf s => if a = 0 then nan else (if 0 < a then inf s else inf (!s))
  | inf s, fin b => if b = 0 then nan else (if 0 < b then inf s else inf (!s))
  | inf s, inf t => inf (s == t)

end FloatVal

/-! ## Splitting

`splitOnChar sep` is Python `str.split(sep)` for a one-character
separator: `n` occurrences of the separator produce `n + 1` parts,
empty parts included. -/

def splitOnChar (sep : Char) : List Char → List (List Char)
  | [] => [[]]
  | c :: cs =>
      if c = sep then [] :: splitOnChar sep cs
      else
        match splitOnChar sep cs with
        | [] => [[c]]
        | p :: ps => (c :: p) :: ps

/-- Python `sub in s` (substring test). -/
def containsSub (p : List Char) : List Char → Bool
  | [] => p.isEmpty
  | c :: rest => List.isPrefixOf p (c :: rest) || containsSub p rest

/-! ## Calendar

`datetime.date` validity and `matplotlib.dates.date2num`.  `date2num`
of a date is the number of days since 1970-01-01, i.e. the proleptic
Gregorian ordinal (Python `date.toordinal`) minus 719163. -/

def isLeap (y : ℕ) : Bool := (y % 4 == 0 && y % 100 != 0) || y % 400 == 0

def daysInMonth (leap : Bool) (m : ℕ) : ℕ :=
  if m = 2 then (if leap then 29 else 28)
  else if m = 4 ∨ m = 6 ∨ m = 9 ∨ m = 11 then 30 else 31

def daysBefore (leap : Bool) (m : ℕ) : ℕ :=
  ((List.range (m - 1)).map (fun i => daysInMonth leap (i + 1))).sum

/-- Number of leap years in `[1, n]`. -/
def leapCount (n : ℕ) : ℤ := ((n / 4 : ℕ) : ℤ) - ((n / 100 : ℕ) : ℤ) + ((n / 400 : ℕ) : ℤ)

/-- Days in years `[1, y)`. -/
def priorDays (y : ℕ) : ℤ := 365 * ((y : ℤ) - 1) + leapCount (y - 1)

/-- Python `date(y, m, d).toordinal()`. -/
def toOrdinal (y m d : ℕ) : ℤ := priorDays y + (daysBefore (isLeap y) m : ℤ) + (d : ℤ)

/-- `matplotlib.dates.date2num` on a `date` (whole number of days). -/
def dnumOf (y m d : ℕ) : ℤ := toOrdinal y m d - 719163

/-- Validity condition enforced by the `datetime.date` constructor. -/
def validDate (y m d : ℕ) : Prop :=
  1 ≤ y ∧ y ≤ 9999 ∧ 1 ≤ m ∧ m ≤ 12 ∧ 1 ≤ d ∧ d ≤ daysInMonth (isLeap y) m

instance (y m d : ℕ) : Decidable (validDate y m d) :=
  inferInstanceAs (Decidable (1 ≤ y ∧ y ≤ 9999 ∧ 1 ≤ m ∧ m ≤ 12 ∧ 1 ≤ d ∧
    d ≤ daysInMonth (isLeap y) m))

/-- Strict ordering of calendar dates `(year, month, day)`. -/
def dateLt (x y : ℕ × ℕ × ℕ) : Prop :=
  x.1 < y.1 ∨ (x.1 = y.1 ∧ (x.2.1 < y.2.1 ∨ (x.2.1 = y.2.1 ∧ x.2.2 < y.2.2)))

instance (x y : ℕ × ℕ × ℕ) : Decidable (dateLt x y) :=
  inferInstanceAs (Decidable (x.1 < y.1 ∨ (x.1 = y.1 ∧
    (x.2.1 < y.2.1 ∨ (x.2.1 = y.2.1 ∧ x.2.2 < y.2.2)))))

/-! ## Numeric literal parsing

Python `int(s)` and `float(s)` on the literal forms the endpoint emits
(optionally signed decimal literals, with an optional fractional part
for `float`).  `none` models the `ValueError` raised on any other
input. -/

def isDigitChar (c : Char) : Bool := '0' ≤ c ∧ c ≤ '9'

def digitsVal (s : List Char) : ℕ :=
  s.foldl (fun acc c => acc * 10 + (c.toNat - 48)) 0

/-- `int(s)` on the strings reaching the date parser. -/
def parseInt (s : List Char) : Option ℤ :=
  match s with
  | '-' :: rest =>
      if rest ≠ [] ∧ rest.all isDigitChar then some (-(digitsVal rest : ℤ)) else none
  | '+' :: rest =>
      if rest ≠ [] ∧ rest.all isDigitChar then some ((digitsVal rest : ℤ)) else none
  | _ => if s ≠ [] ∧ s.all isDigitChar then some ((digitsVal s : ℤ)) else none

/-- Unsigned part of `float(s)`: digits with an optional single point,
at least one digit overall.  The value of `a.b` is the integer with
digits `a ++ b` divided by `10 ^ |b|`. -/
def parseUFloat (s : List Char) : Option ℚ :=
  match splitOnChar '.' s with
  | [a] => if a ≠ [] ∧ a.all isDigitChar then some (mkRat (digitsVal a) 1) else none
  | [a, b] =>
      if (a ≠ [] ∨ b ≠ []) ∧ a.all isDigitChar ∧ b.all isDigitChar then
        some (mkRat (digitsVal (a ++ b)) (10 ^ b.length))
      else none
  | _ => none

/-- `float(s)` on plain decimal literals. -/
def parseFloat (s : List Char) : Option ℚ :=
  match s with
  | '-' :: rest => (parseUFloat rest).map (fun q => -q)
  | '+' :: rest => parseUFloat rest
  | _ => parseUFloat s

/-! ## Parsed rows

One element of the `results` list of `quotes_historical_yahoo_ochl`
(lines 216-222).  The numpy dtypes `stock_dt_ochl` / `stock_dt_ohlc`
name the same fields in either memory layout (`d['open']` is the open
price in both), so a single record with named fields embeds both; the
`date` object column is determined by `(year, month, day)` and is
exposed as `Row.date`.  `opn` stands for the source field `open`
(a Lean keyword). -/

structure Row where
  year : ℕ
  month : ℕ
  day : ℕ
  d : ℤ
  opn : FloatVal
  high : FloatVal
  low : FloatVal
  close : FloatVal
  volume : FloatVal
  aclose : FloatVal
deriving DecidableEq, Inhabited

def Row.date (r : Row) : ℕ × ℕ × ℕ := (r.year, r.month, r.day)

/-- The literal `'null'` sentinel. -/
def nullTok : List Char := "null".toList

/-- `datestr.split('-')` followed by `dtt.date(*[int(val) ...])`
(line 211): exactly three parts, each an integer literal, forming a
valid calendar date; any other shape raises (`none`). -/
def parseDate (s : List Char) : Option (ℕ × ℕ × ℕ) :=
  match splitOnChar '-' s with
  | [a, b, c] =>
      match parseInt a, parseInt b, parseInt c with
      | some y, some mo, some dy =>
          if 1 ≤ y ∧ y ≤ 9999 ∧ 1 ≤ mo ∧ mo ≤ 12 ∧ 1 ≤ dy ∧
              (dy : ℤ) ≤ (daysInMonth (isLeap y.toNat) mo.toNat : ℕ) then
            some (y.toNat, mo.toNat, dy.toNat)
          else none
      | _, _, _ => none
  | _ => none

/-- `0 if val=='null' else float(val)` (lines 213-215). -/
def parseField (s : List Char) : Option ℚ :=
  if s = nullTok then some 0 else parseFloat s

/-- Per-line body of the parsing loop (lines 204-222), applied to the
comma-split fields.  `some none` is the `continue` on a malformed
line; `none` is an uncaught exception. -/
def parseVals (vals : List (List Char)) : Option (Option Row) :=
  if vals.length = 7 then
    match parseDate (vals.getD 0 []) with
    | none => none
    | some (y, mo, dy) =>
        match parseField (vals.getD 1 []), parseField (vals.getD 2 []),
              parseField (vals.getD 3 []), parseField (vals.getD 4 []),
              parseField (vals.getD 5 []), parseField (vals.getD 6 []) with
        | some o, some h, some l, some c, some ac, some v =>
            some (some ⟨y, mo, dy, dnumOf y mo dy,
                        .fin o, .fin h, .fin l, .fin c, .fin v, .fin ac⟩)
        | _, _, _, _, _, _ => none
  else some none

/-- One iteration of the loop (line 204: `vals = line.split(',')`). -/
def parseLine (line : List Char) : Option (Option Row) :=
  parseVals (splitOnChar ',' line)

/-- The whole loop over data lines, in file order. -/
def parseLines : List (List Char) → Option (List Row)
  | [] => some []
  | l :: ls =>
      match parseLine l with
      | none => none
      | some none => parseLines ls
      | some (some r) => (parseLines ls).map (fun rs => r :: rs)

/-- Lines 202-223: drop the heading (`fh[1:]`), parse every data line,
then `results.reverse()`. -/
def parseBody (fh : List (List Char)) : Option (List Row) :=
  (parseLines (fh.drop 1)).map List.reverse

/-! ## Adjusted-price rescaling (lines 225-231) -/

/-- `scale = d['aclose'] / d['close']; scale[np.isinf(scale)] = np.nan`
for one row. -/
def adjScale (r : Row) : FloatVal :=
  let scale0 := FloatVal.fdiv r.aclose r.close
  if scale0.isinf then .nan else scale0

/-- In-place rescaling of one row's `open`/`high`/`low`/`close`. -/
def adjustRow (r : Row) : Row :=
  { r with opn := FloatVal.fmul r.opn (adjScale r),
           high := FloatVal.fmul r.high (adjScale r),
           low := FloatVal.fmul r.low (adjScale r),
           close := FloatVal.fmul r.close (adjScale r) }

/-- The vectorized numpy statements act row-wise. -/
def adjustRows (rows : List Row) : List Row := rows.map adjustRow

/-! ## Output shaping (lines 233-250)

`ret = np.zeros((len(d), 6))` followed by six column assignments; the
tuple-rows output is `[tuple(row) for row in ret]`. -/

/-- `ret[:, j] = col`. -/
def setCol (m : List (Fin 6 → FloatVal)) (j : Fin 6) (col : List FloatVal) :
    List (Fin 6 → FloatVal) :=
  List.zipWith (fun row v => Function.update row j v) m col

/-- The 2-D array `ret` built by lines 235-247. -/
def retMatrix (rows : List Row) (ochl : Bool) : List (Fin 6 → FloatVal) :=
  let m0 := List.replicate rows.length (fun _ : Fin 6 => FloatVal.fin 0)
  let m1 := setCol m0 0 (rows.map (fun r => FloatVal.fin (r.d : ℚ)))
  let m2 :=
    if ochl then
      setCol (setCol (setCol (setCol m1 1 (rows.map Row.opn)) 2 (rows.map Row.close))
        3 (rows.map Row.high)) 4 (rows.map Row.low)
    else
      setCol (setCol (setCol (setCol m1 1 (rows.map Row.opn)) 2 (rows.map Row.high))
        3 (rows.map Row.low)) 4 (rows.map Row.close)
  setCol m2 5 (rows.map Row.volume)

/-- `tuple(row)` for a 6-column row. -/
def rowTuple (f : Fin 6 → FloatVal) :
    FloatVal × FloatVal × FloatVal × FloatVal × FloatVal × FloatVal :=
  (f 0, f 1, f 2, f 3, f 4, f 5)

/-- Line 250: `[tuple(row) for row in ret]` (the `asobject=False` output). -/
def tuplesOut (rows : List Row) (ochl : Bool) :
    List (FloatVal × FloatVal × FloatVal × FloatVal × FloatVal × FloatVal) :=
  (retMatrix rows ochl).map rowTuple

/-- The row list after the optional adjustment (lines 225-231). -/
def effRows (rows : List Row) (adjusted : Bool) : List Row :=
  if adjusted then adjustRows rows else rows

/-- The `asobject=None` output of the entry point. -/
def quotesMatrix (rows : List Row) (adjusted ochl : Bool) : List (Fin 6 → FloatVal) :=
  retMatrix (effRows rows adjusted) ochl

/-- The `asobject=False` output of the entry point. -/
def quotesTuples (rows : List Row) (adjusted ochl : Bool) :
    List (FloatVal × FloatVal × FloatVal × FloatVal × FloatVal × FloatVal) :=
  tuplesOut (effRows rows adjusted) ochl

/-- The six entries the code stores in row `i` of `ret`: day-ordinal,
the four prices in the order selected by `ochl`, volume. -/
def expectedRow (r : Row) (ochl : Bool) : Fin 6 → FloatVal := fun j =>
  if j.val = 0 then .fin (r.d : ℚ)
  else if j.val = 1 then r.opn
  else if j.val = 2 then (if ochl then r.close else r.high)
  else if j.val = 3 then (if ochl then r.high else r.low)
  else if j.val = 4 then (if ochl then r.low else r.close)
  else r.volume

/-! ## The fetch loop of `load_csv_data` (lines 102-119)

`acquire k` is the result of the `k`-th call to
`_get_crumbs_and_cookies` — `none` embeds the `(None, None, None)`
"pattern not found" outcome, `some (header, crumb)` the successful one
(the opaque cookie jar is elided: nothing in the loop inspects it).
`fetch k` is `website.text` of the `k`-th GET against the data
endpoint.  `p1`/`p2` are the epoch bounds already produced by
`convert_to_unix` (local-time `mktime`, environment-dependent, so taken
as inputs). -/

def unauthTok : List Char := "Unauthorized".toList

/-- Message of `ValueError('could not find the stock:' + stock)` (line 116). -/
def notFoundMsg (stock : List Char) : List Char :=
  "could not find the stock:".toList ++ stock

/-- The data-endpoint URL template of lines 106-108. -/
def mkUrl (stock : List Char) (p1 p2 : ℤ) (interval : List Char)
    (crumb : Option (List Char)) : List Char :=
  "https://query1.finance.yahoo.com/v7/finance/download/".toList ++ stock
    ++ "?period1=".toList ++ (toString p1).toList
    ++ "&period2=".toList ++ (toString p2).toList
    ++ "&interval=".toList ++ interval
    ++ "&events=history&crumb=".toList ++ crumb.getD ("None".toList)

/-- Line 119: `website.text.split('\n')[:-1]`. -/
def loadCsvBodyLines (text : List Char) : List (List Char) :=
  (splitOnChar '\n' text).dropLast

/-- Outcome of `load_csv_data`: the returned line list, or one of the
exceptions it can raise.  `nameError` is the `NameError` on `url` /
`website` when the loop body never ran (`rep_time = 0`). -/
inductive FetchResult where
  | success (lines : List (List Char))
  | valueError (msg : List Char)
  | httpError (url : List Char) (response : List Char) (msg : List Char)
      (hdr : List Char)
  | nameError
deriving DecidableEq

/-- The `for _ in range(rep_time): ... else: raise` loop.  `n` is the
number of iterations left, `k` the index of the next data fetch, `cred`
the current `(header, crumb)` (refreshed after every failed attempt),
`last` the `url`/`website.text` pair of the previous iteration (used by
the `raise HTTPError(url, website, 'Unauthorized', header, 1)`). -/
def loadCsvGo (stock : List Char) (p1 p2 : ℤ) (interval : List Char)
    (acquire : ℕ → Option (List Char × List Char)) (fetch : ℕ → List Char) :
    ℕ → ℕ → Option (List Char × List Char) → Option (List Char × List Char) →
    FetchResult
  | 0, _, cred, last =>
      match cred with
      | none => .valueError (notFoundMsg stock)
      | some (hdr, _) =>
          match last with
          | some (url, text) => .httpError url text unauthTok hdr
          | none => .nameError
  | n + 1, k, cred, _ =>
      let url := mkUrl stock p1 p2 interval (cred.map Prod.snd)
      let text := fetch k
      if containsSub unauthTok text = false ∧ cred.isSome = true then
        .success (loadCsvBodyLines text)
      else
        loadCsvGo stock p1 p2 interval acquire fetch n (k + 1) (acquire (k + 1))
          (some (url, text))

/-- `load_csv_data` (lines 74-119) with the network abstracted. -/
def loadCsvData (stock : List Char) (p1 p2 : ℤ) (interval : List Char)
    (acquire : ℕ → Option (List Char × List Char)) (fetch : ℕ → List Char)
    (repTime : ℕ) : FetchResult :=
  loadCsvGo stock p1 p2 interval acquire fetch repTime 0 (acquire 0) none

/-- Number of data-endpoint GETs the loop performs (one per iteration
entered), mirroring the control flow of `loadCsvGo`. -/
def loadCsvSteps (acquire : ℕ → Option (List Char × List Char))
    (fetch : ℕ → List Char) : ℕ → ℕ → Option (List Char × List Char) → ℕ
  | 0, _, _ => 0
  | n + 1, k, cred =>
      if containsSub unauthTok (fetch k) = false ∧ cred.isSome = true then 1
      else 1 + loadCsvSteps acquire fetch n (k + 1) (acquire (k + 1))

/-- Fetch attempts performed by `load_csv_data` with budget `repTime`. -/
def loadCsvAttempts (acquire : ℕ → Option (List Char × List Char))
    (fetch : ℕ → List Char) (repTime : ℕ) : ℕ :=
  loadCsvSteps acquire fetch repTime 0 (acquire 0)

/-- Embeds line 191: `quotes_historical_yahoo_ochl` forwards the
literal `rep_time=5` to `load_csv_data`, whatever its own `rep_time`
argument was. -/
def quotesRepTimeArg (rep_time : ℕ) : ℕ := 5

/-! ## Lemmas about `splitOnChar` -/

theorem splitOnChar_ne_nil (sep : Char) (l : List Char) : splitOnChar sep l ≠ [] := by
  induction l with
  | nil => simp [splitOnChar]
  | cons c cs ih =>
      unfold splitOnChar
      by_cases h : c = sep
      · simp [h]
      · simp only [if_neg h]
        cases hs : splitOnChar sep cs with
        | nil => exact absurd hs ih
        | cons p ps => simp

theorem splitOnChar_length (sep : Char) (l : List Char) :
    (splitOnChar sep l).length = l.count sep + 1 := by
  induction l with
  | nil => simp [splitOnChar]
  | cons c cs ih =>
      unfold splitOnChar
      by_cases h : c = sep
      · simp [h, List.count_cons, ih]
      · simp only [if_neg h]
        cases hs : splitOnChar sep cs with
        | nil => exact absurd hs (splitOnChar_ne_nil sep cs)
        | cons p ps =>
            rw [hs] at ih
            simp only [List.length_cons] at ih ⊢
            simp [List.count_cons, ih, h]

/-- A body ending in the separator splits into a list whose last part is
empty. -/
theorem splitOnChar_append_sep (sep : Char) (xs : List Char) :
    ∃ ys, splitOnChar sep (xs ++ [sep]) = ys ++ [[]] := by
  induction xs with
  | nil => exact ⟨[[]], by simp [splitOnChar]⟩
  | cons c cs ih =>
      obtain ⟨ys, hys⟩ := ih
      unfold splitOnChar
      by_cases h : c = sep
      · exact ⟨[] :: ys, by simp [h, hys]⟩
      · simp only [List.cons_append, if_neg h]
        cases ys with
        | nil =>
            have hlen := splitOnChar_length sep (cs ++ [sep])
            rw [hys] at hlen
            simp [List.count_append] at hlen
        | cons y ys' =>
            rw [hys]
            exact ⟨(c :: y) :: ys', by simp⟩

/-! ## Claim theorems -/

/-- C2 counterexample: the claim fails on a body that does not end with
a newline.  For the body `"ab"`, the split is `[['a','b']]` with no
trailing empty line, yet `load_csv_data` returns `[]`: the non-empty
line `"ab"` of the body is missing from the returned list. -/
theorem load_csv_lines_drops_final_line :
    loadCsvBodyLines ('a' :: 'b' :: []) = [] ∧
    ('a' :: 'b' :: []) ∈ splitOnChar '\n' ('a' :: 'b' :: []) ∧
    ('a' :: 'b' :: []) ≠ ([] : List Char) := by decide

/-- C2 (amended): for every response body that ends with a newline,
`load_csv_data` returns the newline-split of the body with exactly the
trailing empty line removed (hence no non-empty line of such a body is
missing). -/
theorem load_csv_lines_of_trailing_newline (xs : List Char) :
    splitOnChar '\n' (xs ++ ['\n']) = loadCsvBodyLines (xs ++ ['\n']) ++ [[]] := by
  obtain ⟨ys, hys⟩ := splitOnChar_append_sep '\n' xs
  unfold loadCsvBodyLines
  rw [hys]
  simp

/-- C1: the fetch performed on behalf of `quotes_historical_yahoo_ochl`
does NOT use the caller's retry budget.  Line 191 forwards the literal
`5`, so with `rep_time = 3` and every attempt failing (every response
carrying the `Unauthorized` marker) the loop performs 5 fetch attempts,
more than the requested bound of 3 — contradicting the function's own
docstring for `rep_time`. -/
theorem quotes_fetch_ignores_rep_time :
    quotesRepTimeArg 3 = 5 ∧
    loadCsvAttempts (fun _ => some ([], ['c'])) (fun _ => unauthTok)
      (quotesRepTimeArg 3) = 5 ∧
    ¬ loadCsvAttempts (fun _ => some ([], ['c'])) (fun _ => unauthTok)
        (quotesRepTimeArg 3) ≤ 3 := by decide

/-- If every attempt in a window of `n` iterations fails the break
test, the loop walks through to its `else` clause, carrying the
credentials refreshed after the last attempt and the `url`/response of
the last attempt. -/
theorem loadCsvGo_exhaust (stock : List Char) (p1 p2 : ℤ) (interval : List Char)
    (acquire : ℕ → Option (List Char × List Char)) (fetch : ℕ → List Char) :
    ∀ (n k : ℕ) (last : Option (List Char × List Char)),
    (∀ j, k ≤ j → j < k + n → containsSub unauthTok (fetch j) = true ∨ acquire j = none) →
    loadCsvGo stock p1 p2 interval acquire fetch n k (acquire k) last =
      loadCsvGo stock p1 p2 interval acquire fetch 0 (k + n) (acquire (k + n))
        (if n = 0 then last
         else
           some (mkUrl stock p1 p2 interval ((acquire (k + n - 1)).map Prod.snd),
             fetch (k + n - 1))) := by
  intro n
  induction n with
  | zero => intro k last _; rfl
  | succ m ih =>
      intro k last hfail
      have hk : containsSub unauthTok (fetch k) = true ∨ acquire k = none :=
        hfail k (Nat.le_refl k) (by omega)
      have hcond : ¬ (containsSub unauthTok (fetch k) = false ∧
          (acquire k).isSome = true) := by
        rcases hk with h | h
        · rintro ⟨h1, -⟩; rw [h] at h1; cases h1
        · rintro ⟨-, h2⟩; rw [h] at h2; cases h2
      rw [show loadCsvGo stock p1 p2 interval acquire fetch (m + 1) k (acquire k) last =
            loadCsvGo stock p1 p2 interval acquire fetch m (k + 1) (acquire (k + 1))
              (some (mkUrl stock p1 p2 interval ((acquire k).map Prod.snd), fetch k))
          from by rw [loadCsvGo, if_neg hcond]]
      rw [ih (k + 1) _ (fun j hj1 hj2 => hfail j (by omega) (by omega))]
      rw [if_neg (by omega : ¬ m + 1 = 0)]
      by_cases hm : m = 0
      · subst hm
        norm_num
      · rw [if_neg hm]
        have h1 : k + 1 + m = k + (m + 1) := by omega
        rw [h1]

/-- C4: when the fetch loop exhausts every attempt without success, it
raises — a `ValueError` naming the symbol when the last-known crumb is
absent, and an `HTTPError` carrying the failing URL, the response text
and the header context when a crumb is present; it never returns data.
(`1 ≤ repTime` per the spec's positive retry budget; with `repTime = 0`
the `raise HTTPError(url, ...)` would hit an unassigned `url`.) -/
theorem load_csv_exhaust_errors (stock : List Char) (p1 p2 : ℤ)
    (interval : List Char) (acquire : ℕ → Option (List Char × List Char))
    (fetch : ℕ → List Char) (repTime : ℕ) (hrep : 1 ≤ repTime)
    (hfail : ∀ j, j < repTime →
      containsSub unauthTok (fetch j) = true ∨ acquire j = none) :
    (acquire repTime = none →
      loadCsvData stock p1 p2 interval acquire fetch repTime =
        .valueError (notFoundMsg stock)) ∧
    (∀ hdr crumb, acquire repTime = some (hdr, crumb) →
      loadCsvData stock p1 p2 interval acquire fetch repTime =
        .httpError (mkUrl stock p1 p2 interval ((acquire (repTime - 1)).map Prod.snd))
          (fetch (repTime - 1)) unauthTok hdr) ∧
    (∀ lines, loadCsvData stock p1 p2 interval acquire fetch repTime ≠
      .success lines) := by
  obtain ⟨m, rfl⟩ : ∃ m, repTime = m + 1 := ⟨repTime - 1, by omega⟩
  have hstep := loadCsvGo_exhaust stock p1 p2 interval acquire fetch (m + 1) 0 none
    (fun j hj1 hj2 => hfail j (by omega))
  rw [if_neg (by omega : ¬ m + 1 = 0)] at hstep
  simp only [Nat.zero_add] at hstep
  unfold loadCsvData
  rw [hstep]
  have hm : m + 1 - 1 = m := by omega
  rw [hm]
  refine ⟨fun hnone => ?_, fun hdr crumb hsome => ?_, fun lines => ?_⟩
  · rw [loadCsvGo.eq_def, hnone]
  · rw [loadCsvGo.eq_def, hsome]
  · rw [loadCsvGo.eq_def]
    cases hacq : acquire (m + 1) with
    | none => intro h; cases h
    | some pr =>
        cases pr with
        | mk hdr crumb => intro h; cases h

/-- C4 witness at a concrete environment: one attempt, crumb pattern
never found, response carrying the `Unauthorized` marker. -/
theorem load_csv_exhaust_errors_witness :
    loadCsvData ['A'] 0 0 ['1', 'd'] (fun _ => none) (fun _ => unauthTok) 1 =
      .valueError (notFoundMsg ['A']) ∧
    loadCsvData ['A'] 0 0 ['1', 'd'] (fun _ => none) (fun _ => unauthTok) 1 ≠
      .success [] :=
  ⟨(load_csv_exhaust_errors ['A'] 0 0 ['1', 'd'] (fun _ => none)
      (fun _ => unauthTok) 1 (by decide) (fun j _ => Or.inr rfl)).1 rfl,
   (load_csv_exhaust_errors ['A'] 0 0 ['1', 'd'] (fun _ => none)
      (fun _ => unauthTok) 1 (by decide) (fun j _ => Or.inr rfl)).2.2 []⟩

/-! ## Calendar monotonicity -/

theorem daysBefore_succ : ∀ (b : Bool) (m : ℕ), m < 13 → 1 ≤ m →
    daysBefore b m + daysInMonth b m = daysBefore b (m + 1) := by
  intro b; cases b <;> decide

theorem daysBefore_mono : ∀ (b : Bool) (m : ℕ), m < 14 → ∀ m', m' < 14 → m ≤ m' →
    daysBefore b m ≤ daysBefore b m' := by
  intro b; cases b <;> decide

theorem daysBefore_year (b : Bool) :
    daysBefore b 13 = 365 + (if b then 1 else 0) := by
  cases b <;> decide

theorem leapCount_succ (k : ℕ) :
    leapCount (k + 1) = leapCount k + (if isLeap (k + 1) then 1 else 0) := by
  unfold leapCount
  rw [Nat.succ_div, Nat.succ_div, Nat.succ_div]
  simp only [isLeap, Bool.or_eq_true, Bool.and_eq_true, beq_iff_eq, bne_iff_ne, ne_eq]
  push_cast
  split_ifs <;> omega

theorem priorDays_succ (y : ℕ) (hy : 1 ≤ y) :
    priorDays (y + 1) = priorDays y + 365 + (if isLeap y then 1 else 0) := by
  obtain ⟨k, rfl⟩ : ∃ k, y = k + 1 := ⟨y - 1, by omega⟩
  unfold priorDays
  rw [Nat.add_sub_cancel, Nat.add_sub_cancel, leapCount_succ]
  push_cast
  ring

theorem priorDays_le (y y' : ℕ) (hy : 1 ≤ y) (hlt : y < y') :
    priorDays y + 365 + (if isLeap y then 1 else 0) ≤ priorDays y' := by
  induction y' with
  | zero => omega
  | succ z ih =>
      rcases Nat.lt_or_ge y z with h | h
      · have hz : 1 ≤ z := by omega
        have := priorDays_succ z hz
        have hnn : (0 : ℤ) ≤ (if isLeap z then 1 else 0) := by split_ifs <;> omega
        have := ih h
        omega
      · have hyz : y = z := by omega
        subst hyz
        rw [priorDays_succ y hy]

/-- The day-of-year is at most the length of the (leap or common) year. -/
theorem dayOfYear_le (b : Bool) (m d : ℕ) (hm1 : 1 ≤ m) (hm2 : m ≤ 12)
    (hd2 : d ≤ daysInMonth b m) :
    daysBefore b m + d ≤ 365 + (if b then 1 else 0) := by
  have h1 : daysBefore b m + d ≤ daysBefore b (m + 1) := by
    have := daysBefore_succ b m (by omega) hm1
    omega
  have h2 : daysBefore b (m + 1) ≤ daysBefore b 13 :=
    daysBefore_mono b (m + 1) (by omega) 13 (by omega) (by omega)
  have h3 := daysBefore_year b
  omega

/-- Strict monotonicity of the proleptic ordinal on valid dates. -/
theorem toOrdinal_lt_of_dateLt (y m d y' m' d' : ℕ)
    (hv : validDate y m d) (hv' : validDate y' m' d')
    (hlt : dateLt (y, m, d) (y', m', d')) :
    toOrdinal y m d < toOrdinal y' m' d' := by
  obtain ⟨hy1, hy2, hm1, hm2, hd1, hd2⟩ := hv
  obtain ⟨hy1', hy2', hm1', hm2', hd1', hd2'⟩ := hv'
  simp only [dateLt] at hlt
  rcases hlt with hy | ⟨hyeq, hmm⟩
  · -- earlier year
    have hub : daysBefore (isLeap y) m + d ≤ 365 + (if isLeap y then 1 else 0) :=
      dayOfYear_le (isLeap y) m d hm1 hm2 hd2
    have hstep : priorDays y + 365 + (if isLeap y then (1 : ℤ) else 0) ≤ priorDays y' :=
      priorDays_le y y' hy1 hy
    unfold toOrdinal
    split_ifs at hub hstep <;> omega
  · subst hyeq
    rcases hmm with hm | ⟨hmeq, hd⟩
    · -- same year, earlier month
      have h1 : daysBefore (isLeap y) m + d ≤ daysBefore (isLeap y) (m + 1) := by
        have := daysBefore_succ (isLeap y) m (by omega) hm1
        omega
      have h2 : daysBefore (isLeap y) (m + 1) ≤ daysBefore (isLeap y) m' :=
        daysBefore_mono (isLeap y) (m + 1) (by omega) m' (by omega) (by omega)
      unfold toOrdinal
      omega
    · subst hmeq
      unfold toOrdinal
      omega

theorem dnumOf_lt_of_dateLt (y m d y' m' d' : ℕ)
    (hv : validDate y m d) (hv' : validDate y' m' d')
    (hlt : dateLt (y, m, d) (y', m', d')) :
    dnumOf y m d < dnumOf y' m' d' := by
  have := toOrdinal_lt_of_dateLt y m d y' m' d' hv hv' hlt
  unfold dnumOf
  omega

/-! ## Shape of successfully parsed lines -/

theorem parseDate_valid (s : List Char) (y m d : ℕ)
    (h : parseDate s = some (y, m, d)) : validDate y m d := by
  unfold parseDate at h
  split at h
  case h_2 => cases h
  case h_1 a b c =>
    split at h
    case h_2 => cases h
    case h_1 yi mi di hy hm hd =>
      split at h
      case isFalse => cases h
      case isTrue hcond =>
        simp only [Option.some.injEq, Prod.mk.injEq] at h
        obtain ⟨h1, h2, h3⟩ := h
        subst h1; subst h2; subst h3
        unfold validDate
        obtain ⟨c1, c2, c3, c4, c5, c6⟩ := hcond
        refine ⟨by omega, by omega, by omega, by omega, by omega, by omega⟩

theorem parseVals_ok (vals : List (List Char)) (r : Row)
    (h : parseVals vals = some (some r)) :
    validDate r.year r.month r.day ∧ r.d = dnumOf r.year r.month r.day := by
  unfold parseVals at h
  split at h
  case isFalse => simp at h
  case isTrue hlen =>
    split at h
    case h_1 => cases h
    case h_2 y mo dy hdate =>
      split at h
      case h_2 => cases h
      case h_1 o hh l c ac v ho hhh hl hc hac hv =>
        simp only [Option.some.injEq] at h
        subst h
        exact ⟨parseDate_valid _ y mo dy hdate, rfl⟩

theorem parseLine_ok (line : List Char) (r : Row)
    (h : parseLine line = some (some r)) :
    validDate r.year r.month r.day ∧ r.d = dnumOf r.year r.month r.day :=
  parseVals_ok _ r h

theorem parseLines_of_forall₂ {lines : List (List Char)} {rows : List Row}
    (h : List.Forall₂ (fun l r => parseLine l = some (some r)) lines rows) :
    parseLines lines = some rows := by
  induction h with
  | nil => rfl
  | cons h1 _ ih => simp [parseLines, h1, ih]

theorem forall₂_right_exists {α β : Type _} {R : α → β → Prop}
    {l₁ : List α} {l₂ : List β} (h : List.Forall₂ R l₁ l₂) :
    ∀ b ∈ l₂, ∃ a, R a b := by
  induction h with
  | nil => intro b hb; cases hb
  | cons h1 _ ih =>
      intro b hb
      rcases hb with _ | ⟨_, hb⟩
      · exact ⟨_, h1⟩
      · exact ih b hb

theorem chain'_imp_of_mem {α : Type _} {R S : α → α → Prop} :
    ∀ (l : List α), (∀ a ∈ l, ∀ b ∈ l, R a b → S a b) → l.Chain' R → l.Chain' S := by
  intro l
  induction l with
  | nil => intro _ _; exact List.chain'_nil
  | cons a t ih =>
      intro hmem hch
      cases t with
      | nil => exact List.chain'_singleton a
      | cons b t' =>
          rw [List.chain'_cons] at hch ⊢
          refine ⟨hmem a (by simp) b (by simp) hch.1, ?_⟩
          exact ih (fun x hx y hy => hmem x (by simp [hx]) y (by simp [hy])) hch.2

/-- C3 counterexample: the claim fails for data lines that are not in
descending date order.  With the two well-formed lines in ascending
date order, parsing yields the two rows in reversed (hence descending)
date order: the output dates are not strictly ascending. -/
theorem quotes_parse_anyorder_not_sorted :
    parseBody ["Date,Open,High,Low,Close,Adj Close,Volume".toList,
        "2020-01-01,8,9,7,8,8,800".toList,
        "2020-01-02,9,11,8,10,10,900".toList] =
      some [⟨2020, 1, 2, 18263, .fin 9, .fin 11, .fin 8, .fin 10, .fin 900, .fin 10⟩,
            ⟨2020, 1, 1, 18262, .fin 8, .fin 9, .fin 7, .fin 8, .fin 800, .fin 8⟩] ∧
    ¬ List.Chain' (fun a b : Row => dateLt a.date b.date)
        [⟨2020, 1, 2, 18263, .fin 9, .fin 11, .fin 8, .fin 10, .fin 900, .fin 10⟩,
         ⟨2020, 1, 1, 18262, .fin 8, .fin 9, .fin 7, .fin 8, .fin 800, .fin 8⟩] :=
  ⟨by decide, fun h => absurd (List.chain'_cons.mp h).1 (by decide)⟩

/-- C3 (amended): a synthetic body of 1 header line plus N well-formed
7-field data lines whose dates are strictly DESCENDING (the source-feed
order) parses to exactly N rows — the parsed rows in reverse input
order — whose dates and day-ordinals are strictly ascending. -/
theorem quotes_parse_desc_sorted (header : List Char) (lines : List (List Char))
    (rows : List Row)
    (hpar : List.Forall₂ (fun l r => parseLine l = some (some r)) lines rows)
    (hdesc : List.Chain' (fun a b => dateLt b.date a.date) rows) :
    parseBody (header :: lines) = some rows.reverse ∧
    rows.reverse.length = lines.length ∧
    List.Chain' (fun a b => dateLt a.date b.date) rows.reverse ∧
    List.Chain' (fun a b => a.d < b.d) rows.reverse := by
  have hfacts : ∀ r ∈ rows, validDate r.year r.month r.day ∧
      r.d = dnumOf r.year r.month r.day := by
    intro r hr
    obtain ⟨l, hl⟩ := forall₂_right_exists hpar r hr
    exact parseLine_ok l r hl
  refine ⟨?_, ?_, ?_, ?_⟩
  · simp [parseBody, parseLines_of_forall₂ hpar]
  · rw [List.length_reverse, hpar.length_eq]
  · rw [List.chain'_reverse]
    exact hdesc
  · rw [List.chain'_reverse]
    refine chain'_imp_of_mem rows ?_ hdesc
    intro a ha b hb hR
    obtain ⟨hva, hda⟩ := hfacts a ha
    obtain ⟨hvb, hdb⟩ := hfacts b hb
    show b.d < a.d
    rw [hda, hdb]
    exact dnumOf_lt_of_dateLt b.year b.month b.day a.year a.month a.day hvb hva hR

/-- C3 witness: the spec's three-line scenario in feed (descending)
order parses to three date-ascending rows. -/
theorem quotes_parse_desc_sorted_witness :
    parseBody ["Date,Open,High,Low,Close,Adj Close,Volume".toList,
        "2020-01-03,10,12,9,11,11,1000".toList,
        "2020-01-02,9,11,8,10,10,900".toList,
        "2020-01-01,8,9,7,8,8,800".toList] =
      some ([⟨2020, 1, 3, 18264, .fin 10, .fin 12, .fin 9, .fin 11, .fin 1000, .fin 11⟩,
             ⟨2020, 1, 2, 18263, .fin 9, .fin 11, .fin 8, .fin 10, .fin 900, .fin 10⟩,
             ⟨2020, 1, 1, 18262, .fin 8, .fin 9, .fin 7, .fin 8, .fin 800, .fin 8⟩] :
        List Row).reverse ∧
    List.Chain' (fun a b : Row => a.d < b.d)
      ([⟨2020, 1, 3, 18264, .fin 10, .fin 12, .fin 9, .fin 11, .fin 1000, .fin 11⟩,
        ⟨2020, 1, 2, 18263, .fin 9, .fin 11, .fin 8, .fin 10, .fin 900, .fin 10⟩,
        ⟨2020, 1, 1, 18262, .fin 8, .fin 9, .fin 7, .fin 8, .fin 800, .fin 8⟩] :
        List Row).reverse := by
  have h := quotes_parse_desc_sorted
    "Date,Open,High,Low,Close,Adj Close,Volume".toList
    ["2020-01-03,10,12,9,11,11,1000".toList,
     "2020-01-02,9,11,8,10,10,900".toList,
     "2020-01-01,8,9,7,8,8,800".toList]
    [⟨2020, 1, 3, 18264, .fin 10, .fin 12, .fin 9, .fin 11, .fin 1000, .fin 11⟩,
     ⟨2020, 1, 2, 18263, .fin 9, .fin 11, .fin 8, .fin 10, .fin 900, .fin 10⟩,
     ⟨2020, 1, 1, 18262, .fin 8, .fin 9, .fin 7, .fin 8, .fin 800, .fin 8⟩]
    (List.Forall₂.cons (by decide)
      (List.Forall₂.cons (by decide)
        (List.Forall₂.cons (by decide) List.Forall₂.nil)))
    (by rw [List.chain'_cons, List.chain'_cons]
        exact ⟨by decide, by decide, List.chain'_singleton _⟩)
  exact ⟨h.1, h.2.2.2⟩

/-! ## Adjustment lemmas -/

theorem fmul_one (x : FloatVal) : FloatVal.fmul x (.fin 1) = x := by
  cases x with
  | fin a => simp [FloatVal.fmul]
  | inf s => norm_num [FloatVal.fmul]
  | nan => rfl

theorem fmul_nan (x : FloatVal) : FloatVal.fmul x .nan = .nan := by
  cases x <;> rfl

theorem adjScale_eq_one (r : Row) (ha : r.aclose = r.close)
    (hfin : r.close.isFinite = true) (hnz : r.close ≠ .fin 0) :
    adjScale r = .fin 1 := by
  cases hc : r.close with
  | fin q =>
      have hq : q ≠ 0 := fun h => hnz (by rw [hc, h])
      rw [adjScale, ha, hc]
      simp [FloatVal.fdiv, hq, div_self hq, FloatVal.isinf]
  | inf s => rw [hc] at hfin; cases hfin
  | nan => rw [hc] at hfin; cases hfin

theorem adjustRow_id (r : Row) (ha : r.aclose = r.close)
    (hfin : r.close.isFinite = true) (hnz : r.close ≠ .fin 0) :
    adjustRow r = r := by
  have hs := adjScale_eq_one r ha hfin hnz
  cases r
  simp only [adjustRow, hs, fmul_one]

/-- C5 counterexample: a parsed dataset in which adjusted-close equals
close in EVERY row, yet enabling adjustment changes the open field.
The single row comes from an actual parse; its close (and
adjusted-close) is 0, so the scale is `0/0 = nan` — which the
`np.isinf` guard does not catch — and `open` becomes NaN instead of
staying 1. -/
theorem adjusted_changes_row_with_zero_close :
    parseLine ("2020-01-01,1,2,1,0,0,100".toList) =
      some (some ⟨2020, 1, 1, 18262, .fin 1, .fin 2, .fin 1, .fin 0, .fin 100, .fin 0⟩) ∧
    (⟨2020, 1, 1, 18262, .fin 1, .fin 2, .fin 1, .fin 0, .fin 100, .fin 0⟩ : Row).aclose =
      (⟨2020, 1, 1, 18262, .fin 1, .fin 2, .fin 1, .fin 0, .fin 100, .fin 0⟩ : Row).close ∧
    (adjustRows [⟨2020, 1, 1, 18262, .fin 1, .fin 2, .fin 1, .fin 0, .fin 100, .fin 0⟩]).map
        Row.opn ≠
      [FloatVal.fin 1] := by
  refine ⟨by decide, by decide, ?_⟩
  intro h
  simp only [adjustRows, List.map_cons, List.map_map, List.map_nil] at h
  have := List.head_eq_of_cons_eq h
  revert this
  decide

/-- C5 (amended): if adjusted-close equals close and close is a
non-zero finite value in every row, enabling the adjustment flag
leaves every row unchanged (in particular open, high, low and close).
Rows with close = 0 are excluded: there the scale is `0/0`, which the
infinity guard does not normalize, and the prices become NaN. -/
theorem adjusted_id_of_aclose_eq_close (rows : List Row)
    (h : ∀ r ∈ rows, r.aclose = r.close ∧ r.close.isFinite = true ∧ r.close ≠ .fin 0) :
    adjustRows rows = rows := by
  induction rows with
  | nil => rfl
  | cons r t ih =>
      have hr := h r (by simp)
      have ht := ih (fun x hx => h x (by simp [hx]))
      simp only [adjustRows, List.map_cons] at ht ⊢
      rw [adjustRow_id r hr.1 hr.2.1 hr.2.2, ht]

/-- C5 witness: a concrete one-row dataset with close = aclose = 2. -/
theorem adjusted_id_of_aclose_eq_close_witness :
    adjustRows [⟨2020, 1, 1, 18262, .fin 1, .fin 2, .fin 1, .fin 2, .fin 100, .fin 2⟩] =
      [⟨2020, 1, 1, 18262, .fin 1, .fin 2, .fin 1, .fin 2, .fin 100, .fin 2⟩] :=
  adjusted_id_of_aclose_eq_close _ (by decide)

/-- C6: in a row with close = 0 and adjusted-close ≠ 0, the adjustment
produces a NaN scale (the `aclose/close = ±inf` is normalized to NaN
by the `np.isinf` guard) and NaN — never infinite — open, high, low
and close values. -/
theorem adjust_zero_close_nan (r : Row) (hc : r.close = .fin 0)
    (ha : r.aclose ≠ .fin 0) :
    adjScale r = .nan ∧ (adjustRow r).opn = .nan ∧ (adjustRow r).high = .nan ∧
    (adjustRow r).low = .nan ∧ (adjustRow r).close = .nan := by
  have hs : adjScale r = .nan := by
    rw [adjScale, hc]
    cases hac : r.aclose with
    | fin q =>
        have hq : q ≠ 0 := fun h => ha (by rw [hac, h])
        simp [FloatVal.fdiv, hq, FloatVal.isinf]
    | inf s => simp [FloatVal.fdiv, FloatVal.isinf]
    | nan => simp [FloatVal.fdiv, FloatVal.isinf]
  refine ⟨hs, ?_, ?_, ?_, ?_⟩ <;> simp [adjustRow, hs, fmul_nan]

/-- C6 witness: concrete row with close = 0, aclose = 3. -/
theorem adjust_zero_close_nan_witness :
    adjScale ⟨2020, 1, 1, 18262, .fin 1, .fin 2, .fin 1, .fin 0, .fin 100, .fin 3⟩ = .nan ∧
    (adjustRow ⟨2020, 1, 1, 18262, .fin 1, .fin 2, .fin 1, .fin 0, .fin 100, .fin 3⟩).opn =
      .nan ∧
    (adjustRow ⟨2020, 1, 1, 18262, .fin 1, .fin 2, .fin 1, .fin 0, .fin 100, .fin 3⟩).high =
      .nan ∧
    (adjustRow ⟨2020, 1, 1, 18262, .fin 1, .fin 2, .fin 1, .fin 0, .fin 100, .fin 3⟩).low =
      .nan ∧
    (adjustRow ⟨2020, 1, 1, 18262, .fin 1, .fin 2, .fin 1, .fin 0, .fin 100, .fin 3⟩).close =
      .nan :=
  adjust_zero_close_nan _ (by decide) (by decide)

/-! ## Per-line parsing claims -/

/-- C7: a 7-field line whose date parses and whose six numeric fields
are each either the literal `null` or a parseable numeric literal is
parsed without raising, and every `null` field is parsed as zero. -/
theorem parse_null_fields_zero (d0 f1 f2 f3 f4 f5 f6 : List Char)
    (y mo dy : ℕ) (v1 v2 v3 v4 v5 v6 : ℚ)
    (hd : parseDate d0 = some (y, mo, dy))
    (h1 : parseField f1 = some v1) (h2 : parseField f2 = some v2)
    (h3 : parseField f3 = some v3) (h4 : parseField f4 = some v4)
    (h5 : parseField f5 = some v5) (h6 : parseField f6 = some v6) :
    parseVals [d0, f1, f2, f3, f4, f5, f6] =
      some (some ⟨y, mo, dy, dnumOf y mo dy,
        .fin v1, .fin v2, .fin v3, .fin v4, .fin v6, .fin v5⟩) ∧
    (f1 = nullTok → v1 = 0) ∧ (f2 = nullTok → v2 = 0) ∧
    (f3 = nullTok → v3 = 0) ∧ (f4 = nullTok → v4 = 0) ∧
    (f5 = nullTok → v5 = 0) ∧ (f6 = nullTok → v6 = 0) := by
  have hnull : ∀ (f : List Char) (v : ℚ), parseField f = some v → f = nullTok → v = 0 := by
    intro f v hf hfn
    rw [hfn] at hf
    simp [parseField] at hf
    exact hf.symm
  refine ⟨?_, hnull f1 v1 h1, hnull f2 v2 h2, hnull f3 v3 h3, hnull f4 v4 h4,
    hnull f5 v5 h5, hnull f6 v6 h6⟩
  unfold parseVals
  simp only [List.length_cons, List.length_nil, List.getD]
  rw [if_pos (by norm_num)]
  simp only [List.get?_cons_zero, List.get?_cons_succ, Option.getD_some]
  rw [hd, h1, h2, h3, h4, h5, h6]

/-- C7 witness: a line with every numeric field `null` parses to a row
of zeros. -/
theorem parse_null_fields_zero_witness :
    parseVals ["2020-01-01".toList, nullTok, nullTok, nullTok, nullTok, nullTok,
        nullTok] =
      some (some ⟨2020, 1, 1, dnumOf 2020 1 1,
        .fin 0, .fin 0, .fin 0, .fin 0, .fin 0, .fin 0⟩) :=
  (parse_null_fields_zero ("2020-01-01".toList) nullTok nullTok nullTok nullTok nullTok
    nullTok 2020 1 1 0 0 0 0 0 0 (by decide) (by decide) (by decide) (by decide)
    (by decide) (by decide) (by decide)).1

/-- C8: a line whose comma-split field count is not exactly 7 is
silently skipped: it is not an error, and the parse of any line list
containing it equals the parse of the list without it (so it
contributes no row). -/
theorem malformed_line_skipped (l : List Char)
    (hlen : (splitOnChar ',' l).length ≠ 7) :
    parseLine l = some none ∧
    ∀ ls₁ ls₂ : List (List Char),
      parseLines (ls₁ ++ l :: ls₂) = parseLines (ls₁ ++ ls₂) := by
  have hskip : parseLine l = some none := by
    unfold parseLine parseVals
    rw [if_neg hlen]
  refine ⟨hskip, ?_⟩
  intro ls₁ ls₂
  induction ls₁ with
  | nil => simp [parseLines, hskip]
  | cons a t ih =>
      simp only [List.cons_append, parseLines, List.append_eq]
      cases parseLine a with
      | none => rfl
      | some o =>
          cases o with
          | none => exact ih
          | some r => rw [ih]

/-- C8 witness: the two-field line `"a,b"` is skipped and drops out of
a parse. -/
theorem malformed_line_skipped_witness :
    parseLine ("a,b".toList) = some none ∧
    parseLines ["2020-01-01,8,9,7,8,8,800".toList, "a,b".toList] =
      parseLines ["2020-01-01,8,9,7,8,8,800".toList] :=
  ⟨(malformed_line_skipped ("a,b".toList) (by decide)).1,
   (malformed_line_skipped ("a,b".toList) (by decide)).2
     ["2020-01-01,8,9,7,8,8,800".toList] []⟩

/-- C9: the per-line parse is not total on 7-field lines — parsing a
7-field line whose first field does not split into three integer
literals forming a valid calendar date raises (it does not drop the
line): the date precondition is necessary. -/
theorem bad_date_line_raises (l : List Char)
    (hlen : (splitOnChar ',' l).length = 7)
    (hdate : parseDate ((splitOnChar ',' l).getD 0 []) = none) :
    parseLine l = none := by
  unfold parseLine parseVals
  rw [if_pos hlen, hdate]

/-- C9 witness: the 7-field line with date field `null` raises. -/
theorem bad_date_line_raises_witness :
    (splitOnChar ',' "null,1,2,3,4,5,6".toList).length = 7 ∧
    parseLine ("null,1,2,3,4,5,6".toList) = none :=
  ⟨by decide, bad_date_line_raises ("null,1,2,3,4,5,6".toList) (by decide) (by decide)⟩

/-! ## Output-shape agreement -/

theorem getD_zipWith {α β γ : Type _} (f : α → β → γ) :
    ∀ (as : List α) (bs : List β) (i : ℕ) (d : γ) (da : α) (db : β),
      i < as.length → i < bs.length →
      (List.zipWith f as bs).getD i d = f (as.getD i da) (bs.getD i db) := by
  intro as
  induction as with
  | nil => intro bs i d da db h1 _; cases h1
  | cons a t ih =>
      intro bs i d da db h1 h2
      cases bs with
      | nil => cases h2
      | cons b bs' =>
          cases i with
          | zero => rfl
          | succ i' =>
              simp only [List.zipWith_cons_cons, List.getD_cons_succ]
              exact ih bs' i' d da db (by simpa using h1) (by simpa using h2)

theorem getD_map {α β : Type _} (f : α → β) :
    ∀ (l : List α) (i : ℕ) (d : β) (da : α), i < l.length →
      (l.map f).getD i d = f (l.getD i da) := by
  intro l
  induction l with
  | nil => intro i d da h; cases h
  | cons a t ih =>
      intro i d da h
      cases i with
      | zero => rfl
      | succ i' =>
          simp only [List.map_cons, List.getD_cons_succ]
          exact ih i' d da (by simpa using h)

theorem getD_replicate {α : Type _} (a : α) :
    ∀ (n i : ℕ) (d : α), i < n → (List.replicate n a).getD i d = a := by
  intro n
  induction n with
  | zero => intro i d h; cases h
  | succ n' ih =>
      intro i d h
      cases i with
      | zero => rfl
      | succ i' =>
          simp only [List.replicate_succ, List.getD_cons_succ]
          exact ih i' d (by omega)

theorem setCol_length (m : List (Fin 6 → FloatVal)) (j : Fin 6) (col : List FloatVal) :
    (setCol m j col).length = min m.length col.length := by
  simp [setCol]

theorem getD_setCol (m : List (Fin 6 → FloatVal)) (j : Fin 6) (col : List FloatVal)
    (i : ℕ) (hi1 : i < m.length) (hi2 : i < col.length) :
    (setCol m j col).getD i default =
      Function.update (m.getD i default) j (col.getD i default) :=
  getD_zipWith _ m col i default default default hi1 hi2

theorem retMatrix_length (rows : List Row) (ochl : Bool) :
    (retMatrix rows ochl).length = rows.length := by
  cases ochl <;> simp [retMatrix, setCol]

/-- Row `i` of `ret` holds the day-ordinal, the four prices in the
order selected by `ochl`, and the volume of parsed row `i`. -/
theorem retMatrix_getD (rows : List Row) (ochl : Bool) (i : ℕ)
    (hi : i < rows.length) :
    (retMatrix rows ochl).getD i default = expectedRow (rows.getD i default) ochl := by
  cases ochl <;>
    · simp only [retMatrix, if_true, Bool.false_eq_true, if_false]
      rw [getD_setCol, getD_setCol, getD_setCol, getD_setCol, getD_setCol, getD_setCol] <;>
        simp [setCol_length, hi]
      funext j
      fin_cases j <;> simp [Function.update_apply, expectedRow]

/-- C10: for every parsed dataset and every setting of the adjustment
and ordering flags, the tuple-rows output (`asobject=False`) is
exactly the list of tuples of the rows of the matrix output
(`asobject=None`), and each matrix row carries the six columns
day-ordinal, four prices in the requested order, volume. -/
theorem quotes_tuple_matrix_agree (rows : List Row) (adjusted ochl : Bool) :
    quotesTuples rows adjusted ochl = (quotesMatrix rows adjusted ochl).map rowTuple ∧
    (quotesMatrix rows adjusted ochl).length = (effRows rows adjusted).length ∧
    ∀ i, i < (effRows rows adjusted).length →
      (quotesMatrix rows adjusted ochl).getD i default =
        expectedRow ((effRows rows adjusted).getD i default) ochl :=
  ⟨rfl, retMatrix_length _ _, fun i hi => retMatrix_getD _ ochl i hi⟩

/-- C10 witness at a concrete one-row dataset. -/
theorem quotes_tuple_matrix_agree_witness :
    quotesTuples [⟨2020, 1, 1, 18262, .fin 8, .fin 9, .fin 7, .fin 8, .fin 800, .fin 8⟩]
        false true =
      (quotesMatrix [⟨2020, 1, 1, 18262, .fin 8, .fin 9, .fin 7, .fin 8, .fin 800, .fin 8⟩]
          false true).map rowTuple ∧
    (quotesMatrix [⟨2020, 1, 1, 18262, .fin 8, .fin 9, .fin 7, .fin 8, .fin 800, .fin 8⟩]
        false true).getD 0 default =
      expectedRow ⟨2020, 1, 1, 18262, .fin 8, .fin 9, .fin 7, .fin 8, .fin 800, .fin 8⟩
        true :=
  ⟨(quotes_tuple_matrix_agree _ false true).1,
   (quotes_tuple_matrix_agree
     [⟨2020, 1, 1, 18262, .fin 8, .fin 9, .fin 7, .fin 8, .fin 800, .fin 8⟩]
     false true).2.2 0 (by decide)⟩

end YahooFinance
